import Mathlib

/-!
Verification development for the bfc compiler driver.

Shallow embedding of the three driver source files of the repository:
`src/io.rs` (single-file reader, parse loop, error-context lookup and the
`compile_file` pipeline driver), `src/diagnostics.rs` (the `Warning`,
`Level` and `Info` types and the `Display` formatting of `Info`) and
`src/main.rs` (the `executable_name` helper and the process exit behaviour).

Source text is modelled at the byte level: a `ByteStr` is the list of bytes
of a chunk of text, so list length is exactly the Rust byte length used by
`read_line`, byte offsets and `Position`.  External collaborators that are
not part of the repository snapshot (the `bfir` parser, the `peephole`
optimizer, the `execution` abstract interpreter and the LLVM back end) enter
the embedding either as data modelled from the specification or as explicit
functional parameters of the driver.
-/

namespace Bfc

/-- A chunk of source text, one list entry per byte. -/
abbrev ByteStr := List Nat

/-- Modelled from the spec: `bfir::Position` (bfir.rs is not under src/), a
half-open byte-offset range into the original source.  The Rust field `end`
is a reserved word in Lean and is rendered `stop`. -/
structure Position where
  start : Nat
  stop : Nat
deriving DecidableEq, Repr

/-- Modelled from the spec: the error value produced by the external
`bfir::parse_inner` (a message plus the byte-offset `Position` of the
malformed loop boundary). -/
structure ParseError where
  message : String
  position : Position
deriving DecidableEq, Repr

/-- Embeds `diagnostics::Warning`: a message and an optional source position. -/
structure Warning where
  message : String
  position : Option Position
deriving DecidableEq, Repr

/-- Embeds `diagnostics::Level`: the severity of an `Info`. -/
inductive Level where
  | Warning
  | Error
deriving DecidableEq, Repr

/-- Embeds `diagnostics::Info`: a message to the user, a warning or an error, with
optional file name, position, source context and line/column. -/
structure Info where
  level : Level
  filename : Option String
  message : String
  position : Option Position
  source : Option ByteStr
  line_col : Option (Nat × Nat)
deriving DecidableEq, Repr

/-- Embeds `Info::warn`. -/
def Info.warn (msg : String) : Info :=
  { level := Level.Warning, filename := none, message := msg,
    position := none, source := none, line_col := none }

/-- Renders `Info::error` (named `Info.error` here). -/
def Info.error (msg : String) : Info :=
  { level := Level.Error, filename := none, message := msg,
    position := none, source := none, line_col := none }

/-- Embeds `io::ErrorContext`. -/
structure ErrorContext where
  line_col : Nat × Nat
  line : ByteStr
  file : String
deriving DecidableEq, Repr

/-! ### `SingleFileReader::get_err_context`

The reader is modelled by the list of chunks that successive `read_line`
calls yield: each chunk is one line of the file including its terminating
newline byte (the final chunk may lack it), and `read_line` returning
`Ok(0)` at end of file is the empty-list case.  The Rust loop never clears
`buffer`, so `read_line` appends each new line to everything read so far;
the accumulated buffer is the `buffer` parameter below.  The `Err` branch of
`read_line` is an I/O failure of the operating system and is outside the
embedding. -/

def get_err_context_loop (path : String) (idx line : Nat) (buffer : ByteStr) :
    List ByteStr → Except Info ErrorContext
  | [] => Except.error (Info.error ("Reached EOF before error context could be found"))
  | l :: rest =>
    let buffer' := buffer ++ l
    if l.length > idx then
      Except.ok { line_col := (line, idx), line := buffer', file := path }
    else
      get_err_context_loop path (idx - l.length) (line + 1) buffer' rest

/-- Embeds `SingleFileReader::get_err_context` after the initial seek to offset 0. -/
def get_err_context (path : String) (lines : List ByteStr) (idx : Nat) :
    Except Info ErrorContext :=
  get_err_context_loop path idx 0 [] lines

/-! ### `SingleFileReader::parse`

The loop reads one line per iteration (again appending to the never-cleared
`buffer`) and hands the accumulated buffer and the running byte offset to
the external `bfir::parse_inner`.  `parse_inner` and the instruction list it
accumulates are not under src/, so each line comes paired with the outcome
`parse_inner` reports for that iteration (`none` for success, `some e` for a
parse error); the diagnostics built from those outcomes are exactly the
src/io.rs code. -/

def parse_lines (path : String) :
    Nat → Nat → ByteStr → List Info → List (ByteStr × Option ParseError) → List Info
  | _, _, _, errors, [] => errors
  | offset, linenum, buffer, errors, (l, res) :: rest =>
    let buffer' := buffer ++ l
    let errors' :=
      match res with
      | some e =>
        errors ++ [{ level := Level.Error, filename := some path,
                     message := e.message, position := some e.position,
                     source := some buffer',
                     line_col := some (linenum, e.position.start - offset) }]
      | none => errors
    parse_lines path (offset + l.length) (linenum + 1) buffer' errors' rest

/-- The diagnostics collected by one run of `SingleFileReader::parse`. -/
def parse_errors (path : String) (lines : List (ByteStr × Option ParseError)) : List Info :=
  parse_lines path 0 0 [] [] lines

/-- Embeds `SingleFileReader::parse`: errors abort with `Err`, otherwise the
instruction list built by the external `parse_inner` is returned (its
contents are opaque here, hence `Unit`). -/
def parse (path : String) (lines : List (ByteStr × Option ParseError)) :
    Except (List Info) Unit :=
  if parse_errors path lines = [] then Except.ok () else Except.error (parse_errors path lines)

/-- Byte offset of the first byte of line `i`: total length of the lines
before it. -/
def byteOffsetBefore (lines : List ByteStr) (i : Nat) : Nat :=
  ((lines.take i).map List.length).sum

/-- Total byte length of a file given as its list of lines. -/
def totalLen (lines : List ByteStr) : Nat :=
  (lines.map List.length).sum

/-- Concatenation of the first `i` lines, the content of the accumulated
`read_line` buffer after `i` reads. -/
def joinTake (lines : List ByteStr) (i : Nat) : ByteStr :=
  (lines.take i).flatten

/-! ### IR and execution state

The IR node type and the abstract-execution state live in bfir.rs and
execution.rs, which are not part of the snapshot. -/

/-- Modelled from the spec: the `Instruction` (IR node) variants of §3 of
the specification (bfir.rs is not under src/).  The `i8`/`u8`/`i64` amounts
are carried as integers; no arithmetic on them happens in this driver. -/
inductive AstNode where
  | Increment (amount : Int) (cell_offset : Int) (pos : Position)
  | PointerMove (amount : Int) (pos : Position)
  | Read (pos : Position)
  | Write (pos : Position)
  | Loop (body : List AstNode) (pos : Position)
  | Set (amount : Nat) (cell_offset : Int) (pos : Position)

/-- Modelled from the spec: the `outcome` field of the MachineState of §3
(execution.rs is not under src/). -/
inductive ExecOutcome where
  | Completed
  | StepBudgetExhausted
  | ReadEncountered

/-- Modelled from the spec: `execution::ExecutionState` (the MachineState of
§3; execution.rs is not under src/): a sparse tape, a pointer, a step count,
the instruction at which residual code resumes, and the outcome. -/
structure ExecutionState where
  tape : List (Int × Nat)
  pointer : Int
  steps_executed : Nat
  start_instr : Option AstNode
  outcome : ExecOutcome

/-- Modelled from the spec: `ExecutionState::initial` builds the fresh state
(all cells zero, pointer 0, nothing executed, no start instruction chosen
yet). -/
def ExecutionState.initial (instrs : List AstNode) : ExecutionState :=
  { tape := [], pointer := 0, steps_executed := 0,
    start_instr := none, outcome := ExecOutcome.Completed }

/-! ### The `compile_file` driver -/

/-- The command-line options `compile_file` consults, one field per
`opt_str`/`opt_present` lookup. -/
structure Matches where
  opt : Option String
  passes : Option String
  dump_ir : Bool

/-- The collaborators of `compile_file`: the file content seen by the
reader, the outcome of `SingleFileReader::parse`, and the external
`peephole::optimize`, `execution::execute` and LLVM hand-off functions
(their modules are not under src/, so they are parameters). -/
structure CompileEnv where
  path : String
  lines : List ByteStr
  parseResult : Except (List Info) (List AstNode)
  optimize : List AstNode → Option String → List AstNode × List Warning
  execute : List AstNode → ExecutionState × Option Warning
  handoff : List AstNode → ExecutionState → Except Info Unit

/-- How a run of `compile_file` ends: `Ok(())`, `Err(errors)`, or a Rust
panic (which unwinds instead of returning). -/
inductive CompileOutcome where
  | ok
  | err (errors : List Info)
  | panicked (msg : String)

/-- The observable trace of one `compile_file` run: whether
`peephole::optimize`, `execution::execute` and the LLVM hand-off were
invoked, the arguments handed to code generation, and how the call ended. -/
structure CompileResult where
  ranOptimize : Bool
  ranExecute : Bool
  ranHandoff : Bool
  handoffArgs : Option (List AstNode × ExecutionState)
  result : CompileOutcome

/-- The optimization step of `compile_file`: `peephole::optimize` runs
exactly when the optimization level string is not "0", otherwise the parsed
instructions pass through with no warnings. -/
def opt_stage (env : CompileEnv) (m : Matches) (instrs : List AstNode) :
    List AstNode × List Warning :=
  if m.opt.getD ("2") ≠ ("0") then env.optimize instrs m.passes else (instrs, [])

/-- The warning-formatting loop body of `compile_file`: a warning with a
position is turned into a `Level::Warning` `Info` carrying the error context
found at the position's start byte, a failed context lookup contributes the
lookup's error `Info` instead, and a position-less warning becomes
`Info::warn`. -/
def formatWarning (path : String) (lines : List ByteStr) (w : Warning) : Info :=
  match w.position with
  | some pos =>
    match get_err_context path lines pos.start with
    | Except.ok ctx =>
      { level := Level.Warning, filename := some ctx.file, message := w.message,
        position := w.position, source := some ctx.line,
        line_col := some ctx.line_col }
    | Except.error e => e
  | none => Info.warn w.message

/-- The tail of `compile_file` after the execution stage: format the
collected warnings into `errors`, run the LLVM hand-off (appending its error
if it fails), and return `Err(errors)` when `errors` is nonempty. -/
def compile_finish (env : CompileEnv) (ranOpt ranExec : Bool)
    (instrs : List AstNode) (state : ExecutionState) (ws : List Warning) :
    CompileResult :=
  let errors := ws.map (formatWarning env.path env.lines)
  let errors' :=
    match env.handoff instrs state with
    | Except.ok _ => errors
    | Except.error e => errors ++ [e]
  { ranOptimize := ranOpt, ranExecute := ranExec, ranHandoff := true,
    handoffArgs := some (instrs, state),
    result := if errors' = [] then CompileOutcome.ok else CompileOutcome.err errors' }

/-- Embeds `io::compile_file`: parse, optionally optimize, honour `--dump-ir`,
compute the execution state (abstract execution at level "2", otherwise the
initial state pointed at the first instruction, which panics on an empty
program), format warnings, and hand off to LLVM. -/
def compile_file (env : CompileEnv) (m : Matches) : CompileResult :=
  match env.parseResult with
  | Except.error errs =>
    { ranOptimize := false, ranExecute := false, ranHandoff := false,
      handoffArgs := none, result := CompileOutcome.err errs }
  | Except.ok instrs0 =>
    let opt_level := m.opt.getD ("2")
    let step := opt_stage env m instrs0
    let ranOpt : Bool := decide (opt_level ≠ ("0"))
    if m.dump_ir then
      { ranOptimize := ranOpt, ranExecute := false, ranHandoff := false,
        handoffArgs := none, result := CompileOutcome.ok }
    else if opt_level = ("2") then
      compile_finish env ranOpt true step.1 (env.execute step.1).1
        (step.2 ++ (env.execute step.1).2.toList)
    else
      match step.1 with
      | [] =>
        { ranOptimize := ranOpt, ranExecute := false, ranHandoff := false,
          handoffArgs := none,
          result := CompileOutcome.panicked
            ("index out of bounds: the len is 0 but the index is 0") }
      | i0 :: _ =>
        compile_finish env ranOpt false step.1
          { ExecutionState.initial step.1 with start_instr := some i0 }
          step.2

/-- The exit code `main` produces from the result of `compile_file`:
`Ok` falls through (exit 0), `Err` prints every `Info` and exits with 2, and
a panic aborts the process (Rust's default panic exit code 101). -/
def main_exit_code (r : CompileResult) : Nat :=
  match r.result with
  | CompileOutcome.ok => 0
  | CompileOutcome.err _ => 2
  | CompileOutcome.panicked _ => 101

/-! ### Branch normal forms of `compile_file` -/

theorem compile_file_parse_error (env : CompileEnv) (m : Matches) (errs : List Info)
    (h : env.parseResult = Except.error errs) :
    compile_file env m =
      { ranOptimize := false, ranExecute := false, ranHandoff := false,
        handoffArgs := none, result := CompileOutcome.err errs } := by
  simp only [compile_file, h]

theorem compile_file_dump (env : CompileEnv) (m : Matches) (instrs0 : List AstNode)
    (h : env.parseResult = Except.ok instrs0) (hd : m.dump_ir = true) :
    compile_file env m =
      { ranOptimize := decide (m.opt.getD ("2") ≠ ("0")), ranExecute := false,
        ranHandoff := false, handoffArgs := none, result := CompileOutcome.ok } := by
  simp only [compile_file, h, hd, if_true]

theorem compile_file_level2 (env : CompileEnv) (m : Matches) (instrs0 : List AstNode)
    (h : env.parseResult = Except.ok instrs0) (hd : m.dump_ir = false)
    (h2 : m.opt.getD ("2") = ("2")) :
    compile_file env m =
      compile_finish env (decide (m.opt.getD ("2") ≠ ("0"))) true
        (opt_stage env m instrs0).1
        (env.execute (opt_stage env m instrs0).1).1
        ((opt_stage env m instrs0).2 ++
          (env.execute (opt_stage env m instrs0).1).2.toList) := by
  simp only [compile_file, h, hd, h2, if_false, if_true, Bool.false_eq_true, ite_false, ite_true]

theorem compile_file_other_nil (env : CompileEnv) (m : Matches) (instrs0 : List AstNode)
    (h : env.parseResult = Except.ok instrs0) (hd : m.dump_ir = false)
    (h2 : m.opt.getD ("2") ≠ ("2")) (hn : (opt_stage env m instrs0).1 = []) :
    compile_file env m =
      { ranOptimize := decide (m.opt.getD ("2") ≠ ("0")), ranExecute := false,
        ranHandoff := false, handoffArgs := none,
        result := CompileOutcome.panicked
          ("index out of bounds: the len is 0 but the index is 0") } := by
  simp only [compile_file, h, hd, Bool.false_eq_true, ite_false, if_neg h2, hn]

theorem compile_file_other_cons (env : CompileEnv) (m : Matches) (instrs0 : List AstNode)
    (i0 : AstNode) (rest : List AstNode)
    (h : env.parseResult = Except.ok instrs0) (hd : m.dump_ir = false)
    (h2 : m.opt.getD ("2") ≠ ("2")) (hc : (opt_stage env m instrs0).1 = i0 :: rest) :
    compile_file env m =
      compile_finish env (decide (m.opt.getD ("2") ≠ ("0"))) false
        (opt_stage env m instrs0).1
        { ExecutionState.initial (opt_stage env m instrs0).1 with start_instr := some i0 }
        (opt_stage env m instrs0).2 := by
  simp only [compile_file, h, hd, Bool.false_eq_true, ite_false, if_neg h2, hc]

theorem compile_finish_ranHandoff (env : CompileEnv) (a b : Bool) (instrs : List AstNode)
    (st : ExecutionState) (ws : List Warning) :
    (compile_finish env a b instrs st ws).ranHandoff = true := rfl

theorem compile_finish_ranOptimize (env : CompileEnv) (a b : Bool) (instrs : List AstNode)
    (st : ExecutionState) (ws : List Warning) :
    (compile_finish env a b instrs st ws).ranOptimize = a := rfl

theorem compile_finish_ranExecute (env : CompileEnv) (a b : Bool) (instrs : List AstNode)
    (st : ExecutionState) (ws : List Warning) :
    (compile_finish env a b instrs st ws).ranExecute = b := rfl

theorem compile_finish_handoffArgs (env : CompileEnv) (a b : Bool) (instrs : List AstNode)
    (st : ExecutionState) (ws : List Warning) :
    (compile_finish env a b instrs st ws).handoffArgs = some (instrs, st) := rfl

theorem compile_finish_result (env : CompileEnv) (a b : Bool) (instrs : List AstNode)
    (st : ExecutionState) (ws : List Warning)
    (hh : env.handoff instrs st = Except.ok ()) :
    (compile_finish env a b instrs st ws).result =
      if ws.map (formatWarning env.path env.lines) = [] then CompileOutcome.ok
      else CompileOutcome.err (ws.map (formatWarning env.path env.lines)) := by
  simp only [compile_finish, hh]

/-! ### Claim C5 -/

/-- C5: malformed source is a hard failure: when parsing reports at least
one error, `compile_file` returns the collected errors without running the
optimizer, abstract execution or code generation, and
`SingleFileReader::parse` itself returns its nonempty error list as `Err`. -/
theorem C5_parse_failure_aborts :
    (∀ (env : CompileEnv) (m : Matches) (errs : List Info),
      env.parseResult = Except.error errs →
      compile_file env m =
        { ranOptimize := false, ranExecute := false, ranHandoff := false,
          handoffArgs := none, result := CompileOutcome.err errs })
    ∧ (∀ (path : String) (lines : List (ByteStr × Option ParseError)),
      parse_errors path lines ≠ [] →
      parse path lines = Except.error (parse_errors path lines)) := by
  constructor
  · exact compile_file_parse_error
  · intro path lines h
    simp only [parse, if_neg h]

def envC5 : CompileEnv :=
  { path := "bad.bf", lines := [[91, 10]],
    parseResult := Except.error [Info.error ("unmatched loop boundary")],
    optimize := fun i _ => (i, []),
    execute := fun i => (ExecutionState.initial i, none),
    handoff := fun _ _ => Except.ok () }

def mC5 : Matches := { opt := none, passes := none, dump_ir := false }

theorem C5_witness :
    compile_file envC5 mC5 =
      { ranOptimize := false, ranExecute := false, ranHandoff := false,
        handoffArgs := none,
        result := CompileOutcome.err [Info.error ("unmatched loop boundary")] } :=
  C5_parse_failure_aborts.1 envC5 mC5 [Info.error ("unmatched loop boundary")] rfl

/-! ### Claim C4 -/

/-- C4: when the instruction sequence reaching the execution stage is empty
and the optimization level is any string other than "2", `compile_file`
panics with an out-of-bounds index while taking the first instruction for
`start_instr`, instead of returning an error value. -/
theorem C4_empty_program_panics :
    ∀ (env : CompileEnv) (m : Matches) (instrs0 : List AstNode) (s : String),
      env.parseResult = Except.ok instrs0 → m.dump_ir = false →
      m.opt = some s → s ≠ ("2") →
      (opt_stage env m instrs0).1 = [] →
      (compile_file env m).result =
        CompileOutcome.panicked
          ("index out of bounds: the len is 0 but the index is 0") := by
  intro env m instrs0 s h hd ho hs hn
  have h2 : m.opt.getD ("2") ≠ ("2") := by rw [ho]; simpa using hs
  rw [compile_file_other_nil env m instrs0 h hd h2 hn]

def envC4 : CompileEnv :=
  { path := "empty.bf", lines := [],
    parseResult := Except.ok [],
    optimize := fun i _ => (i, []),
    execute := fun i => (ExecutionState.initial i, none),
    handoff := fun _ _ => Except.ok () }

def mC4 : Matches := { opt := some ("0"), passes := none, dump_ir := false }

theorem C4_witness :
    (compile_file envC4 mC4).result =
      CompileOutcome.panicked
        ("index out of bounds: the len is 0 but the index is 0") :=
  C4_empty_program_panics envC4 mC4 [] ("0") rfl rfl rfl (by decide) rfl

/-! ### Claim C7 -/

/-- C7: a `Warning` consists of exactly a message and an optional position
(two warnings agreeing on those are equal, so no severity is carried), while
severity lives on the distinct `Info` type, whose `Level` is either
`Warning` or `Error` and is set accordingly by the two constructors. -/
theorem C7_warning_carries_no_severity :
    (∀ w₁ w₂ : Warning, w₁ = w₂ ↔ (w₁.message = w₂.message ∧ w₁.position = w₂.position))
    ∧ (∀ l : Level, l = Level.Warning ∨ l = Level.Error)
    ∧ (∀ msg : String,
        (Info.warn msg).level = Level.Warning ∧ (Info.error msg).level = Level.Error) := by
  refine ⟨?_, ?_, ?_⟩
  · intro w₁ w₂
    cases w₁
    cases w₂
    simp
  · intro l
    cases l
    · exact Or.inl rfl
    · exact Or.inr rfl
  · intro msg
    exact ⟨rfl, rfl⟩

/-! ### Claim C1 -/

/-- C1 (amended): for every parsed program, level "0" skips the whole
optimization core, and `peephole::optimize` is invoked exactly when the
level string is not "0"; constant-folding abstract execution, however, is
invoked exactly when the level string is "2" and `--dump-ir` is absent, not
for every level at or above 1. -/
theorem C1_optimization_gates :
    ∀ (env : CompileEnv) (m : Matches) (instrs0 : List AstNode),
      env.parseResult = Except.ok instrs0 →
      (((compile_file env m).ranOptimize = true) ↔ m.opt.getD ("2") ≠ ("0"))
      ∧ (((compile_file env m).ranExecute = true) ↔
          (m.opt.getD ("2") = ("2") ∧ m.dump_ir = false)) := by
  intro env m instrs0 h
  by_cases hd : m.dump_ir
  · rw [compile_file_dump env m instrs0 h hd]
    simp [hd]
  · have hd' : m.dump_ir = false := by simpa using hd
    by_cases h2 : m.opt.getD ("2") = ("2")
    · rw [compile_file_level2 env m instrs0 h hd' h2]
      simp [compile_finish_ranOptimize, compile_finish_ranExecute, h2, hd']
    · cases hc : (opt_stage env m instrs0).1 with
      | nil =>
        rw [compile_file_other_nil env m instrs0 h hd' h2 hc]
        simp [h2]
      | cons i0 rest =>
        rw [compile_file_other_cons env m instrs0 i0 rest h hd' h2 hc]
        simp [compile_finish_ranOptimize, compile_finish_ranExecute, h2]

def instrC1 : AstNode := AstNode.Increment 1 0 { start := 0, stop := 1 }

def envC1 : CompileEnv :=
  { path := "c1.bf", lines := [[43, 10]],
    parseResult := Except.ok [instrC1],
    optimize := fun i _ => (i, []),
    execute := fun i => (ExecutionState.initial i, none),
    handoff := fun _ _ => Except.ok () }

def mC1 : Matches := { opt := some ("1"), passes := none, dump_ir := false }

/-- C1 counterexample: at optimization level "1" (a level at or above 1)
the optimizer runs but constant-folding abstract execution is never
invoked, refuting the claim that every level at or above 1 runs it. -/
theorem C1_counterexample :
    mC1.opt = some ("1") ∧
    (compile_file envC1 mC1).ranOptimize = true ∧
    (compile_file envC1 mC1).ranExecute = false :=
  ⟨rfl, rfl, rfl⟩

def mC1W : Matches := { opt := none, passes := none, dump_ir := false }

theorem C1_witness :
    (compile_file envC1 mC1W).ranExecute = true :=
  (C1_optimization_gates envC1 mC1W [instrC1] rfl).2.mpr ⟨rfl, rfl⟩

/-! ### Claim C3 -/

/-- C3 (amended): in a run that reaches the execution stage, the driver
invokes the Abstract Execution Engine on the optimized sequence exactly when
the level string is "2", handing its state to code generation; at every
other level it instead hands over the initial state with `start_instr`
pointed at the first optimized instruction, without invoking execution. -/
theorem C3_execute_only_at_level2 :
    ∀ (env : CompileEnv) (m : Matches) (instrs0 : List AstNode),
      env.parseResult = Except.ok instrs0 → m.dump_ir = false →
      ((m.opt.getD ("2") = ("2") →
        (compile_file env m).ranExecute = true ∧
        (compile_file env m).handoffArgs =
          some ((opt_stage env m instrs0).1,
            (env.execute (opt_stage env m instrs0).1).1))
      ∧ (m.opt.getD ("2") ≠ ("2") →
        (compile_file env m).ranExecute = false ∧
        ∀ (i0 : AstNode) (rest : List AstNode),
          (opt_stage env m instrs0).1 = i0 :: rest →
          (compile_file env m).handoffArgs =
            some ((opt_stage env m instrs0).1,
              { ExecutionState.initial (opt_stage env m instrs0).1 with
                  start_instr := some i0 }))) := by
  intro env m instrs0 h hd
  constructor
  · intro h2
    rw [compile_file_level2 env m instrs0 h hd h2]
    exact ⟨compile_finish_ranExecute _ _ _ _ _ _, compile_finish_handoffArgs _ _ _ _ _ _⟩
  · intro h2
    cases hc : (opt_stage env m instrs0).1 with
    | nil =>
      rw [compile_file_other_nil env m instrs0 h hd h2 hc]
      refine ⟨rfl, ?_⟩
      intro i0 rest hc'
      exact List.noConfusion hc'
    | cons i0 rest =>
      rw [compile_file_other_cons env m instrs0 i0 rest h hd h2 hc]
      refine ⟨compile_finish_ranExecute _ _ _ _ _ _, ?_⟩
      intro i0' rest' hc'
      injection hc' with h1 h2
      subst h1
      subst h2
      rw [compile_finish_handoffArgs, hc]

def instrC3 : AstNode := AstNode.Increment 1 0 { start := 0, stop := 1 }

def envC3 : CompileEnv :=
  { path := "c3.bf", lines := [[43, 10]],
    parseResult := Except.ok [instrC3],
    optimize := fun i _ => (i, []),
    execute := fun _ =>
      ({ tape := [], pointer := 0, steps_executed := 999,
         start_instr := none, outcome := ExecOutcome.Completed }, none),
    handoff := fun _ _ => Except.ok () }

def mC3 : Matches := { opt := some ("1"), passes := none, dump_ir := false }

/-- C3 counterexample: at optimization level "1" the state handed to code
generation is the untouched initial state with `start_instr` set (its step
count is 0, not the 999 the execution oracle would report), so the Abstract
Execution Engine was never invoked even though the level is at or above
1. -/
theorem C3_counterexample :
    mC3.opt = some ("1") ∧
    (compile_file envC3 mC3).ranExecute = false ∧
    (compile_file envC3 mC3).handoffArgs =
      some ([instrC3],
        { tape := [], pointer := 0, steps_executed := 0,
          start_instr := some instrC3, outcome := ExecOutcome.Completed }) :=
  ⟨rfl, rfl, rfl⟩

def mC3W : Matches := { opt := some ("2"), passes := none, dump_ir := false }

theorem C3_witness :
    (compile_file envC3 mC3W).ranExecute = true ∧
    (compile_file envC3 mC3W).handoffArgs =
      some ((opt_stage envC3 mC3W [instrC3]).1,
        (envC3.execute (opt_stage envC3 mC3W [instrC3]).1).1) :=
  (C3_execute_only_at_level2 envC3 mC3W [instrC3] rfl rfl).1 rfl

/-! ### Claim C2 -/

/-- The warnings a run of `compile_file` collects before formatting: those
of the optimizer stage plus, at level "2", the one the abstract interpreter
may report. -/
def produced_warnings (env : CompileEnv) (m : Matches) (instrs0 : List AstNode) :
    List Warning :=
  (opt_stage env m instrs0).2 ++
    (if m.opt.getD ("2") = ("2")
     then (env.execute (opt_stage env m instrs0).1).2.toList else [])

theorem main_exit_code_err (r : CompileResult) (es : List Info)
    (h : r.result = CompileOutcome.err es) : main_exit_code r = 2 := by
  simp [main_exit_code, h]

theorem formatWarning_level_of_ok (path : String) (lines : List ByteStr) (w : Warning)
    (h : w.position = none ∨
      ∃ p, w.position = some p ∧ (get_err_context path lines p.start).isOk = true) :
    (formatWarning path lines w).level = Level.Warning := by
  rcases h with h | ⟨p, hp, hok⟩
  · simp [formatWarning, h, Info.warn]
  · cases hge : get_err_context path lines p.start with
    | ok ctx => simp [formatWarning, hp, hge]
    | error e =>
      rw [hge] at hok
      simp [Except.isOk, Except.toBool] at hok

/-- C2 (amended): in a run where parsing succeeds and only advisory
warnings arise, the pipeline does complete (code generation is still
invoked) and the warnings propagate upward as a sequence of data values,
each formatted at level `Warning`; but a nonempty warning list is returned
as the `Err` value of `compile_file`, so the run ends with exit code 2
rather than a successful result. -/
theorem C2_warnings_returned_as_err :
    ∀ (env : CompileEnv) (m : Matches) (instrs0 : List AstNode),
      env.parseResult = Except.ok instrs0 → m.dump_ir = false →
      (m.opt.getD ("2") = ("2") ∨ (opt_stage env m instrs0).1 ≠ []) →
      (∀ instrs st, env.handoff instrs st = Except.ok ()) →
      produced_warnings env m instrs0 ≠ [] →
      (∀ w ∈ produced_warnings env m instrs0, w.position = none ∨
        ∃ p, w.position = some p ∧
          (get_err_context env.path env.lines p.start).isOk = true) →
      (compile_file env m).ranHandoff = true ∧
      (compile_file env m).result =
        CompileOutcome.err
          ((produced_warnings env m instrs0).map (formatWarning env.path env.lines)) ∧
      (∀ info ∈ (produced_warnings env m instrs0).map (formatWarning env.path env.lines),
        info.level = Level.Warning) ∧
      main_exit_code (compile_file env m) = 2 := by
  intro env m instrs0 h hd hstage hok hne hadvisory
  have hlevels :
      ∀ info ∈ (produced_warnings env m instrs0).map (formatWarning env.path env.lines),
        info.level = Level.Warning := by
    intro info hmem
    rcases List.mem_map.mp hmem with ⟨w, hw, rfl⟩
    exact formatWarning_level_of_ok env.path env.lines w (hadvisory w hw)
  have hmapne :
      (produced_warnings env m instrs0).map (formatWarning env.path env.lines) ≠ [] := by
    intro hmap
    exact hne (List.map_eq_nil_iff.mp hmap)
  by_cases h2 : m.opt.getD ("2") = ("2")
  · have hpw : (opt_stage env m instrs0).2 ++
        (env.execute (opt_stage env m instrs0).1).2.toList =
          produced_warnings env m instrs0 := by
      rw [produced_warnings, if_pos h2]
    have hres := compile_finish_result env (decide (m.opt.getD ("2") ≠ ("0"))) true
      (opt_stage env m instrs0).1 (env.execute (opt_stage env m instrs0).1).1
      (produced_warnings env m instrs0) (hok _ _)
    rw [compile_file_level2 env m instrs0 h hd h2, hpw]
    refine ⟨rfl, ?_, hlevels,
      main_exit_code_err _
        ((produced_warnings env m instrs0).map (formatWarning env.path env.lines)) ?_⟩ <;>
      rw [hres, if_neg hmapne]
  · rcases hstage with h2' | hne'
    · exact absurd h2' h2
    · cases hc : (opt_stage env m instrs0).1 with
      | nil => exact absurd hc hne'
      | cons i0 rest =>
        have hpw : (opt_stage env m instrs0).2 = produced_warnings env m instrs0 := by
          rw [produced_warnings, if_neg h2, List.append_nil]
        have hres := compile_finish_result env (decide (m.opt.getD ("2") ≠ ("0"))) false
          (opt_stage env m instrs0).1
          { ExecutionState.initial (opt_stage env m instrs0).1 with start_instr := some i0 }
          (produced_warnings env m instrs0) (hok _ _)
        rw [compile_file_other_cons env m instrs0 i0 rest h hd h2 hc, hpw]
        refine ⟨rfl, ?_, hlevels,
      main_exit_code_err _
        ((produced_warnings env m instrs0).map (formatWarning env.path env.lines)) ?_⟩ <;>
      rw [hres, if_neg hmapne]

def instrC2 : AstNode := AstNode.Increment 1 0 { start := 0, stop := 1 }

def envC2 : CompileEnv :=
  { path := "c2.bf", lines := [[43, 10]],
    parseResult := Except.ok [instrC2],
    optimize := fun i _ => (i, [{ message := ("net cell change"), position := none }]),
    execute := fun i => (ExecutionState.initial i, none),
    handoff := fun _ _ => Except.ok () }

def mC2 : Matches := { opt := none, passes := none, dump_ir := false }

/-- C2 counterexample: a run in which parsing succeeds and the only
diagnostic is one advisory optimizer warning still makes `compile_file`
return `Err` (carrying that warning as a `Level::Warning` `Info`) and makes
`main` exit with code 2, refuting the claim that warnings never cause
`compile_file` to return an error. -/
theorem C2_counterexample :
    (compile_file envC2 mC2).result =
      CompileOutcome.err [Info.warn ("net cell change")] ∧
    (Info.warn ("net cell change")).level = Level.Warning ∧
    main_exit_code (compile_file envC2 mC2) = 2 :=
  ⟨rfl, rfl, rfl⟩

theorem C2_witness :
    (compile_file envC2 mC2).ranHandoff = true ∧
    (compile_file envC2 mC2).result =
      CompileOutcome.err
        ((produced_warnings envC2 mC2 [instrC2]).map (formatWarning envC2.path envC2.lines)) ∧
    (∀ info ∈ (produced_warnings envC2 mC2 [instrC2]).map (formatWarning envC2.path envC2.lines),
      info.level = Level.Warning) ∧
    main_exit_code (compile_file envC2 mC2) = 2 :=
  C2_warnings_returned_as_err envC2 mC2 [instrC2] rfl rfl (Or.inl rfl)
    (fun _ _ => rfl) (by decide)
    (by
      intro w hw
      have hw' : w ∈ [({ message := ("net cell change"), position := none } : Warning)] := hw
      simp only [List.mem_singleton] at hw'
      subst hw'
      exact Or.inl rfl)

theorem C7_witness :
    ({ message := ("overflow"), position := none } : Warning) =
        { message := ("overflow"), position := none } ↔
      ((("overflow") : String) = ("overflow") ∧ (none : Option Position) = none) :=
  C7_warning_carries_no_severity.1
    { message := ("overflow"), position := none }
    { message := ("overflow"), position := none }

/-! ### Claim C9 -/

theorem get_err_context_loop_eof :
    ∀ (lines : List ByteStr) (path : String) (idx line : Nat) (buf : ByteStr),
      totalLen lines ≤ idx →
      get_err_context_loop path idx line buf lines =
        Except.error (Info.error ("Reached EOF before error context could be found")) := by
  intro lines
  induction lines with
  | nil => intro path idx line buf _; rfl
  | cons l rest ih =>
    intro path idx line buf h
    have hlen : l.length ≤ idx := by
      simp only [totalLen, List.map_cons, List.sum_cons] at h
      omega
    rw [get_err_context_loop, if_neg (by omega)]
    apply ih
    simp only [totalLen, List.map_cons, List.sum_cons] at h
    simp only [totalLen]
    omega

theorem get_err_context_loop_found :
    ∀ (i : Nat) (lines : List ByteStr) (path : String) (idx line : Nat)
      (buf l : ByteStr),
      lines[i]? = some l →
      byteOffsetBefore lines i ≤ idx →
      idx < byteOffsetBefore lines i + l.length →
      get_err_context_loop path idx line buf lines =
        Except.ok { line_col := (line + i, idx - byteOffsetBefore lines i),
                    line := buf ++ joinTake lines (i + 1), file := path } := by
  intro i
  induction i with
  | zero =>
    intro lines path idx line buf l hget hlo hhi
    cases lines with
    | nil => cases hget
    | cons l0 rest =>
      simp only [List.getElem?_cons_zero, Option.some.injEq] at hget
      subst hget
      simp only [byteOffsetBefore, List.take_zero, List.map_nil, List.sum_nil,
        Nat.zero_add] at hhi
      rw [get_err_context_loop, if_pos hhi]
      simp [joinTake, byteOffsetBefore]
  | succ j ih =>
    intro lines path idx line buf l hget hlo hhi
    cases lines with
    | nil => cases hget
    | cons l0 rest =>
      simp only [List.getElem?_cons_succ] at hget
      have hoff : byteOffsetBefore (l0 :: rest) (j + 1) =
          l0.length + byteOffsetBefore rest j := by
        simp [byteOffsetBefore]
      rw [hoff] at hlo hhi
      rw [get_err_context_loop, if_neg (by omega)]
      rw [ih rest path (idx - l0.length) (line + 1) (buf ++ l0) l hget (by omega) (by omega)]
      have h1 : line + 1 + j = line + (j + 1) := by omega
      have h2 : idx - l0.length - byteOffsetBefore rest j =
          idx - (l0.length + byteOffsetBefore rest j) := by omega
      simp [joinTake, h1, h2, hoff]

/-- C9 (amended): `get_err_context` scans the file from the start: with a
byte index at or beyond the end of the file it returns the
"Reached EOF before error context could be found" error rather than looping
or panicking, and otherwise it stops at the first line whose byte length
exceeds the remaining index, with `line_col` equal to (zero-based line
number, byte column within that line); the `line` field of the returned
context, however, holds the concatenation of all lines up to and including
that line (the read buffer is never cleared), not that line alone. -/
theorem C9_err_context_characterization :
    (∀ (path : String) (lines : List ByteStr) (idx : Nat),
      totalLen lines ≤ idx →
      get_err_context path lines idx =
        Except.error (Info.error ("Reached EOF before error context could be found")))
    ∧ (∀ (path : String) (lines : List ByteStr) (idx i : Nat) (l : ByteStr),
      lines[i]? = some l →
      byteOffsetBefore lines i ≤ idx →
      idx < byteOffsetBefore lines i + l.length →
      get_err_context path lines idx =
        Except.ok { line_col := (i, idx - byteOffsetBefore lines i),
                    line := joinTake lines (i + 1), file := path }) := by
  constructor
  · intro path lines idx h
    exact get_err_context_loop_eof lines path idx 0 [] h
  · intro path lines idx i l hget hlo hhi
    rw [get_err_context, get_err_context_loop_found i lines path idx 0 [] l hget hlo hhi]
    simp

/-- C9 counterexample: on the two-line file "ab\ncd\n" with byte index 3
(the first byte of the second line), the returned context correctly reports
line 1 column 0 but its `line` field is the whole accumulated prefix
"ab\ncd\n", not the second line "cd\n" that the claim says is returned. -/
theorem C9_counterexample :
    get_err_context ("demo.bf") [[97, 98, 10], [99, 100, 10]] 3 =
      Except.ok { line_col := (1, 0), line := [97, 98, 10, 99, 100, 10],
                  file := ("demo.bf") } ∧
    ([97, 98, 10, 99, 100, 10] : ByteStr) ≠ [99, 100, 10] :=
  ⟨rfl, by decide⟩

theorem C9_witness :
    get_err_context ("w.bf") [[97]] 5 =
      Except.error (Info.error ("Reached EOF before error context could be found")) :=
  C9_err_context_characterization.1 ("w.bf") [[97]] 5 (by decide)

/-! ### Claim C6 -/

theorem parse_lines_mem_of_mem :
    ∀ (lines : List (ByteStr × Option ParseError)) (path : String)
      (off n : Nat) (buf : ByteStr) (errs : List Info) (x : Info),
      x ∈ errs → x ∈ parse_lines path off n buf errs lines := by
  intro lines
  induction lines with
  | nil => intro path off n buf errs x hx; exact hx
  | cons hd rest ih =>
    intro path off n buf errs x hx
    cases hd with
    | mk l res =>
      simp only [parse_lines]
      apply ih
      cases res with
      | some e => exact List.mem_append_left _ hx
      | none => exact hx

theorem parse_lines_mem :
    ∀ (lines : List (ByteStr × Option ParseError)) (path : String) (i : Nat)
      (l : ByteStr) (e : ParseError) (off n : Nat) (buf : ByteStr) (errs : List Info),
      lines[i]? = some (l, some e) →
      ({ level := Level.Error, filename := some path, message := e.message,
         position := some e.position,
         source := some (buf ++ joinTake (lines.map Prod.fst) (i + 1)),
         line_col := some (n + i,
           e.position.start - (off + byteOffsetBefore (lines.map Prod.fst) i)) } : Info)
        ∈ parse_lines path off n buf errs lines := by
  intro lines
  induction lines with
  | nil => intro path i l e off n buf errs hget; cases hget
  | cons hd rest ih =>
    intro path i l e off n buf errs hget
    cases hd with
    | mk l0 res0 =>
      cases i with
      | zero =>
        simp only [List.getElem?_cons_zero, Option.some.injEq, Prod.mk.injEq] at hget
        rcases hget with ⟨hl, hres⟩
        subst hl
        subst hres
        simp only [parse_lines]
        apply parse_lines_mem_of_mem
        apply List.mem_append_right
        simp [joinTake, byteOffsetBefore]
      | succ j =>
        simp only [List.getElem?_cons_succ] at hget
        simp only [parse_lines]
        have := ih path j l e (off + l0.length) (n + 1) (buf ++ l0)
          (match res0 with
           | some e0 =>
             errs ++ [{ level := Level.Error, filename := some path,
                        message := e0.message, position := some e0.position,
                        source := some (buf ++ l0),
                        line_col := some (n, e0.position.start - off) }]
           | none => errs) hget
        have harith : n + 1 + j = n + (j + 1) := by omega
        have hoff : off + l0.length + byteOffsetBefore (rest.map Prod.fst) j =
            off + byteOffsetBefore ((l0 :: rest.map Prod.fst)) (j + 1) := by
          simp [byteOffsetBefore]
          omega
        simpa [joinTake, byteOffsetBefore, harith, List.append_assoc, Nat.add_assoc]
          using this

/-- C6 (amended): every parse-time diagnostic of `SingleFileReader::parse`
is byte-offset addressed and carries the parser's `Position`, with a
zero-based line number and a column equal to the error's start offset minus
the byte offset of the first byte of that line; the attached source
context, however, is the concatenation of all lines read up to and
including the offending one (the read buffer is never cleared), not the
offending line's text alone. -/
theorem C6_parse_diagnostics :
    ∀ (path : String) (lines : List (ByteStr × Option ParseError)) (i : Nat)
      (l : ByteStr) (e : ParseError),
      lines[i]? = some (l, some e) →
      ({ level := Level.Error, filename := some path, message := e.message,
         position := some e.position,
         source := some (joinTake (lines.map Prod.fst) (i + 1)),
         line_col := some (i,
           e.position.start - byteOffsetBefore (lines.map Prod.fst) i) } : Info)
        ∈ parse_errors path lines := by
  intro path lines i l e hget
  have := parse_lines_mem lines path i l e 0 0 [] [] hget
  simpa [parse_errors] using this

def linesC6 : List (ByteStr × Option ParseError) :=
  [([97, 98, 10], none),
   ([99, 100, 10],
    some { message := ("unmatched loop boundary"),
           position := { start := 4, stop := 5 } })]

/-- C6 counterexample: for the two-line file "ab\ncd\n" whose second line
carries the parse error, the single diagnostic's attached source context is
the accumulated prefix "ab\ncd\n", not the offending line "cd\n" alone. -/
theorem C6_counterexample :
    (parse_errors ("demo.bf") linesC6).map Info.source =
      [some [97, 98, 10, 99, 100, 10]] ∧
    ([97, 98, 10, 99, 100, 10] : ByteStr) ≠ [99, 100, 10] :=
  ⟨rfl, by decide⟩

def linesC6W : List (ByteStr × Option ParseError) :=
  [([45, 10], some { message := ("err"), position := { start := 0, stop := 1 } })]

theorem C6_witness :
    ({ level := Level.Error, filename := some ("w.bf"), message := ("err"),
       position := some { start := 0, stop := 1 },
       source := some [45, 10],
       line_col := some (0, 0) } : Info) ∈ parse_errors ("w.bf") linesC6W :=
  C6_parse_diagnostics ("w.bf") linesC6W 0 [45, 10]
    { message := ("err"), position := { start := 0, stop := 1 } } rfl

/-! ### Claim C8: `Display for Info`

`Info::fmt` is modelled as the five strings handed to the terminal, in
order, before ANSI styling (the styling only colours the pieces and carries
no information).  The `debug_assert!(range.start <= range.end)` is the
`Except.error` case: in a debug build the assertion aborts formatting. -/

structure FmtParts where
  file_text : String
  level_text : String
  message : String
  context_line : ByteStr
  caret_line : String
deriving DecidableEq, Repr

def spaces (n : Nat) : String := String.mk (List.replicate n (' '))

def tildes (n : Nat) : String := String.mk (List.replicate n ('~'))

/-- The tail of `Info::fmt` after the offsets are known: level text, context
line and caret line, assembled into the displayed pieces. -/
def fmtAssemble (info : Info) (file_text : String) (offsets : Option (Nat × Nat)) :
    Except String FmtParts :=
  let level_text := match info.level with
    | Level.Warning => (" warning: ")
    | Level.Error => (" error: ")
  let pair : ByteStr × String :=
    match offsets, info.source with
    | some (column_idx, width), some src =>
      (src, ("\n") ++ spaces column_idx ++ ("^") ++
        (if width > 0 then tildes width else ("")))
    | _, _ => ([], (""))
  Except.ok { file_text := file_text, level_text := level_text,
              message := info.message, context_line := pair.1,
              caret_line := pair.2 }

/-- The initial `file_text` of `Info::fmt`: the file name or the empty
string. -/
def fmtFileText (info : Info) : String :=
  match info.filename with
  | some v => v
  | none => ("")

/-- Embeds `Info::fmt`: when both a position and a line/column are present the
assertion `range.start <= range.end` is checked, the file text is extended
with one-based line and column, and the offsets (column, range width) drive
the context and caret lines. -/
def fmtInfo (info : Info) : Except String FmtParts :=
  match info.position, info.line_col with
  | some range, some lc =>
    if range.start ≤ range.stop then
      fmtAssemble info
        (fmtFileText info ++ (":") ++ toString (lc.1 + 1) ++ (":") ++ toString (lc.2 + 1))
        (some (lc.2, range.stop - range.start))
    else Except.error ("assertion failed: range.start <= range.end")
  | _, _ => fmtAssemble info (fmtFileText info) none

theorem fmtAssemble_isOk (info : Info) (ft : String) (offs : Option (Nat × Nat)) :
    ∃ out, fmtAssemble info ft offs = Except.ok out :=
  ⟨_, rfl⟩

/-- C8: for diagnostics whose attached `Position` respects the
specification invariant `start <= end`, formatting an `Info` never trips the
`debug_assert` in `Info::fmt`: whenever both a position and a line/column
are present the assertion `range.start <= range.end` is valid and formatting
succeeds. -/
theorem C8_fmt_assertion_valid :
    ∀ info : Info,
      (∀ range, info.position = some range → range.start ≤ range.stop) →
      ∃ out, fmtInfo info = Except.ok out := by
  intro info h
  cases hp : info.position with
  | some range =>
    cases hlc : info.line_col with
    | some lc =>
      have heq : fmtInfo info =
          fmtAssemble info
            (fmtFileText info ++ (":") ++ toString (lc.1 + 1) ++ (":") ++
              toString (lc.2 + 1))
            (some (lc.2, range.stop - range.start)) := by
        simp only [fmtInfo, hp, hlc]
        rw [if_pos (h range hp)]
      rw [heq]
      exact fmtAssemble_isOk _ _ _
    | none =>
      have heq : fmtInfo info = fmtAssemble info (fmtFileText info) none := by
        simp only [fmtInfo, hp, hlc]
      rw [heq]
      exact fmtAssemble_isOk _ _ _
  | none =>
    cases hlc : info.line_col with
    | some lc =>
      have heq : fmtInfo info = fmtAssemble info (fmtFileText info) none := by
        simp only [fmtInfo, hp, hlc]
      rw [heq]
      exact fmtAssemble_isOk _ _ _
    | none =>
      have heq : fmtInfo info = fmtAssemble info (fmtFileText info) none := by
        simp only [fmtInfo, hp, hlc]
      rw [heq]
      exact fmtAssemble_isOk _ _ _

def infoC8 : Info :=
  { level := Level.Warning, filename := some ("demo.bf"),
    message := ("cell overflow"), position := some { start := 2, stop := 5 },
    source := some [43, 43, 45, 10], line_col := some (0, 2) }

theorem C8_witness : ∃ out, fmtInfo infoC8 = Except.ok out :=
  C8_fmt_assertion_valid infoC8 (by
    intro range h
    have h' : some ({ start := 2, stop := 5 } : Position) = some range := h
    injection h' with h''
    rw [← h'']
    decide)

/-! ### Claim C10: `executable_name`

Text handled by Rust's `str::split` is character-based, so this part of the
embedding uses `List Char`. -/

/-- Rust `str::split(sep)`: splits at every occurrence of `sep`, keeping
empty pieces; the empty string yields one empty piece. -/
def splitChar (sep : Char) : List Char → List (List Char)
  | [] => [[]]
  | c :: rest =>
    if c = sep then [] :: splitChar sep rest
    else
      match splitChar sep rest with
      | [] => [[c]]
      | s :: ss => (c :: s) :: ss

/-- Rust `[&str]::join(sep)` for one-character separators. -/
def joinSep (sep : Char) : List (List Char) → List Char
  | [] => []
  | [x] => x
  | x :: y :: rest => x ++ sep :: joinSep sep (y :: rest)

/-- The last nonempty '/'-separated component of a path. -/
def last_component (path : List Char) : Option (List Char) :=
  ((splitChar ('/') path).filter (fun c => !c.isEmpty)).getLast?

/-- Embeds `std::path::Path::file_name` for Unix paths: the last nonempty
component, unless it is "." or ".." (for which Rust yields the previous
component or `None`; the theorems below only consult paths whose last
nonempty component is a plain file name, where the two agree). -/
def file_name (path : List Char) : Option (List Char) :=
  match last_component path with
  | none => none
  | some c =>
    if c = [('.')] ∨ c = [('.'), ('.')] then none else some c

/-- Embeds `main::executable_name`: split the file name on '.', drop the last
piece when there are at least two, and join the rest back with '.'.  The
`unwrap` of a missing file name is the `none` case. -/
def executable_name (bf_path : List Char) : Option (List Char) :=
  match file_name bf_path with
  | none => none
  | some bf_file_name =>
    let name_parts := splitChar ('.') bf_file_name
    let parts' := if name_parts.length > 1 then name_parts.dropLast else name_parts
    some (joinSep ('.') parts')

theorem splitChar_ne_nil (sep : Char) (l : List Char) : splitChar sep l ≠ [] := by
  induction l with
  | nil => simp [splitChar]
  | cons c rest ih =>
    rw [splitChar]
    by_cases hc : c = sep
    · simp [hc]
    · rw [if_neg hc]
      cases hs : splitChar sep rest with
      | nil => simp
      | cons s ss => simp

theorem splitChar_eq_single_of_not_mem (sep : Char) (l : List Char) (h : sep ∉ l) :
    splitChar sep l = [l] := by
  induction l with
  | nil => rfl
  | cons c rest ih =>
    have hc : ¬c = sep := fun hc => h (hc ▸ List.mem_cons_self c rest)
    have hrest : sep ∉ rest := fun hm => h (List.mem_cons_of_mem c hm)
    rw [splitChar, if_neg hc, ih hrest]

theorem splitChar_length_of_mem (sep : Char) (l : List Char) (h : sep ∈ l) :
    2 ≤ (splitChar sep l).length := by
  induction l with
  | nil => cases h
  | cons c rest ih =>
    rw [splitChar]
    by_cases hc : c = sep
    · rw [if_pos hc]
      have := splitChar_ne_nil sep rest
      cases hs : splitChar sep rest with
      | nil => exact absurd hs this
      | cons s ss => simp
    · rw [if_neg hc]
      have hrest : sep ∈ rest := by
        rcases List.mem_cons.mp h with h' | h'
        · exact absurd h'.symm hc
        · exact h'
      have h2 := ih hrest
      cases hs : splitChar sep rest with
      | nil => exact absurd hs (splitChar_ne_nil sep rest)
      | cons s ss =>
        rw [hs] at h2
        simpa using h2

theorem joinSep_cons_of_ne_nil (sep : Char) (x : List Char)
    (l : List (List Char)) (h : l ≠ []) :
    joinSep sep (x :: l) = x ++ sep :: joinSep sep l := by
  cases l with
  | nil => exact absurd rfl h
  | cons y rest => rfl

theorem joinSep_splitChar (sep : Char) (l : List Char) :
    joinSep sep (splitChar sep l) = l := by
  induction l with
  | nil => rfl
  | cons c rest ih =>
    rw [splitChar]
    by_cases hc : c = sep
    · rw [if_pos hc, joinSep_cons_of_ne_nil sep [] _ (splitChar_ne_nil sep rest), ih, hc]
      rfl
    · rw [if_neg hc]
      cases hs : splitChar sep rest with
      | nil => exact absurd hs (splitChar_ne_nil sep rest)
      | cons s ss =>
        rw [hs] at ih
        cases ss with
        | nil =>
          simp only [joinSep] at ih ⊢
          rw [ih]
        | cons t ts =>
          rw [joinSep_cons_of_ne_nil sep (c :: s) (t :: ts) (by simp)]
          rw [joinSep_cons_of_ne_nil sep s (t :: ts) (by simp)] at ih
          rw [← ih]
          rfl

theorem not_mem_of_mem_splitChar (sep : Char) (l x : List Char)
    (hx : x ∈ splitChar sep l) : sep ∉ x := by
  induction l generalizing x with
  | nil =>
    simp only [splitChar, List.mem_singleton] at hx
    subst hx
    simp
  | cons c rest ih =>
    rw [splitChar] at hx
    by_cases hc : c = sep
    · rw [if_pos hc] at hx
      rcases List.mem_cons.mp hx with h' | h'
      · subst h'; simp
      · exact ih x h'
    · rw [if_neg hc] at hx
      cases hs : splitChar sep rest with
      | nil => exact absurd hs (splitChar_ne_nil sep rest)
      | cons s ss =>
        rw [hs] at hx
        rcases List.mem_cons.mp hx with h' | h'
        · subst h'
          intro hmem
          rcases List.mem_cons.mp hmem with h'' | h''
          · exact hc h''.symm
          · exact ih s (hs ▸ List.mem_cons_self s ss) h''
        · exact ih x (hs ▸ List.mem_cons_of_mem s h')

theorem joinSep_dropLast_decomp (sep : Char) :
    ∀ parts : List (List Char), 2 ≤ parts.length →
      ∃ lastSeg, lastSeg ∈ parts ∧
        joinSep sep parts = joinSep sep parts.dropLast ++ sep :: lastSeg := by
  intro parts
  induction parts with
  | nil => intro h; cases h
  | cons x rest ih =>
    intro h
    cases rest with
    | nil => simp at h
    | cons y rs =>
      cases rs with
      | nil =>
        exact ⟨y, by simp, rfl⟩
      | cons z rs' =>
        obtain ⟨ls, hmem, heq⟩ := ih (by simp)
        refine ⟨ls, List.mem_cons_of_mem x hmem, ?_⟩
        have hdl : (x :: y :: z :: rs').dropLast = x :: (y :: z :: rs').dropLast := rfl
        rw [hdl, joinSep_cons_of_ne_nil sep x ((y :: z :: rs').dropLast) (by simp)]
        calc joinSep sep (x :: y :: z :: rs')
            = x ++ sep :: joinSep sep (y :: z :: rs') := rfl
          _ = x ++ sep :: (joinSep sep ((y :: z :: rs').dropLast) ++ sep :: ls) := by rw [heq]
          _ = (x ++ sep :: joinSep sep ((y :: z :: rs').dropLast)) ++ sep :: ls := by
              simp [List.append_assoc]

/-- C10: for every path whose final (nonempty, non-dot) component `c`
contains at least one '.', `executable_name` returns `c` with only its last
'.'-separated segment removed — the result `stem` satisfies
`c = stem ++ "." ++ lastSeg` with `lastSeg` dot-free, so inner dots are
preserved — while a file name containing no '.' is returned unchanged. -/
theorem C10_executable_name :
    ∀ path c : List Char,
      last_component path = some c → c ≠ [('.')] → c ≠ [('.'), ('.')] →
      ((('.') ∈ c →
        ∃ stem lastSeg, executable_name path = some stem ∧
          c = stem ++ ('.') :: lastSeg ∧ ('.') ∉ lastSeg)
      ∧ (('.') ∉ c → executable_name path = some c)) := by
  intro path c hlast hne1 hne2
  have hfn : file_name path = some c := by
    rw [file_name, hlast]
    exact if_neg (fun h => h.elim hne1 hne2)
  constructor
  · intro hdot
    have hlen := splitChar_length_of_mem ('.') c hdot
    obtain ⟨ls, hmem, heq⟩ := joinSep_dropLast_decomp ('.') (splitChar ('.') c) hlen
    refine ⟨joinSep ('.') ((splitChar ('.') c).dropLast), ls, ?_, ?_, ?_⟩
    · simp only [executable_name, hfn]
      rw [if_pos (by omega)]
    · exact (joinSep_splitChar ('.') c).symm.trans heq
    · exact not_mem_of_mem_splitChar ('.') c ls hmem
  · intro hnd
    have hs := splitChar_eq_single_of_not_mem ('.') c hnd
    simp only [executable_name, hfn, hs]
    rfl

theorem C10_witness :
    ∃ stem lastSeg,
      executable_name (("bar/baz.bf").toList) = some stem ∧
      ("baz.bf").toList = stem ++ ('.') :: lastSeg ∧ ('.') ∉ lastSeg :=
  (C10_executable_name (("bar/baz.bf").toList) (("baz.bf").toList)
    (by decide) (by decide) (by decide)).1 (by decide)

end Bfc
